import Mathlib

/-!
Shallow embedding of `src/wm2014_simulation.py` (FIFA World Cup 2014 Monte
Carlo simulation) and proofs about it.

Modelling conventions:
* Machine floats are modelled by exact rationals (`ℚ`); the literals `1e-12`,
  `1.3` and `0.05` from the source become `1/10^12`, `13/10` and `1/20`.
* The single global numpy generator is modelled by an oracle `Rng` giving, for
  every consumption index, the outcome of a Poisson draw (`pois i lam`) or of a
  uniform draw in `[0,1)` (`unif i`), together with an explicit consumption
  counter threaded through every function.  Each `rng.poisson` call and each
  `rng.random()` call consumes exactly one index.
* Python's `STRENGTH` dict is a partial map `Team → Option ℚ`; a failed lookup
  (Python `KeyError`) is an `Except.error` carrying the offending team and the
  consumption counter at the moment the error is raised.
* Python dicts keyed by strings are association lists with first-occurrence
  lookup and insert-or-update semantics.
-/

namespace WM2014

abbrev Team := String

/-- `1e-12`, the division guard from `simulate_match` / `knockout_winner`. -/
def eps : ℚ := 1 / 10 ^ 12

/-- `BASE_GOALS = 1.3` (line 16 of the source). -/
def BASE_GOALS : ℚ := 13 / 10

/-- Oracle view of the shared numpy generator: `pois i lam` is the value of the
Poisson draw made at consumption index `i` with rate `lam`; `unif i` is the
value of the uniform draw made at index `i`. -/
structure Rng where
  pois : ℕ → ℚ → ℕ
  unif : ℕ → ℚ

/-- `WC2014_TEAMS` (lines 31–40). -/
def WC2014_TEAMS : List Team := [
  "Brazil", "Croatia", "Mexico", "Cameroon",
  "Spain", "Netherlands", "Chile", "Australia",
  "Colombia", "Greece", "Côte d'Ivoire", "Japan",
  "Uruguay", "Costa Rica", "England", "Italy",
  "Switzerland", "Ecuador", "France", "Honduras",
  "Argentina", "Bosnia and Herzegovina", "IR Iran", "Nigeria",
  "Germany", "Portugal", "Ghana", "USA",
  "Belgium", "Algeria", "Russia", "Korea Republic"]

/-- `GROUPS` (lines 55–64), in insertion order A..H. -/
def GROUPS : List (String × List Team) := [
  ("A", ["Brazil", "Croatia", "Mexico", "Cameroon"]),
  ("B", ["Spain", "Netherlands", "Chile", "Australia"]),
  ("C", ["Colombia", "Greece", "Côte d'Ivoire", "Japan"]),
  ("D", ["Uruguay", "Costa Rica", "England", "Italy"]),
  ("E", ["Switzerland", "Ecuador", "France", "Honduras"]),
  ("F", ["Argentina", "Bosnia and Herzegovina", "IR Iran", "Nigeria"]),
  ("G", ["Germany", "Portugal", "Ghana", "USA"]),
  ("H", ["Belgium", "Algeria", "Russia", "Korea Republic"])]

/-- `ROUND_OF_16` (lines 66–71). -/
def ROUND_OF_16 : List (String × String) := [
  ("A1", "B2"), ("C1", "D2"),
  ("B1", "A2"), ("D1", "C2"),
  ("E1", "F2"), ("G1", "H2"),
  ("F1", "E2"), ("H1", "G2")]

/-- `share_a = sa / denom` with `denom = sa + sb + 1e-12` (lines 99–100). -/
def share_a (sa sb : ℚ) : ℚ := sa / (sa + sb + eps)

/-- `share_b = sb / denom` (line 101). -/
def share_b (sa sb : ℚ) : ℚ := sb / (sa + sb + eps)

/-- `lam_a = max(0.05, BASE_GOALS * share_a)` (line 103). -/
def lam_a (sa sb : ℚ) : ℚ := max (1 / 20) (BASE_GOALS * share_a sa sb)

/-- `lam_b = max(0.05, BASE_GOALS * share_b)` (line 104). -/
def lam_b (sa sb : ℚ) : ℚ := max (1 / 20) (BASE_GOALS * share_b sa sb)

/-- `simulate_match` (lines 76–108).  Looks up both strengths (a missing entry
raises, carrying the current consumption counter, before any draw is made),
then draws `ga` at index `s` with rate `lam_a` and `gb` at index `s+1` with
rate `lam_b`.  Returns the goal pair and the advanced counter. -/
def simulate_matchE (S : Team → Option ℚ) (o : Rng) (a b : Team) (s : ℕ) :
    Except (Team × ℕ) ((ℕ × ℕ) × ℕ) :=
  match S a with
  | none => .error (a, s)
  | some sa =>
    match S b with
    | none => .error (b, s)
    | some sb =>
      .ok ((o.pois s (lam_a sa sb), o.pois (s + 1) (lam_b sa sb)), s + 2)

/-- `knockout_winner` (lines 110–138): play the match; the higher score wins;
on a draw, re-look-up both strengths and draw one uniform value `u`; team A
wins iff `u < sa / (sa + sb + 1e-12)`. -/
def knockout_winnerE (S : Team → Option ℚ) (o : Rng) (a b : Team) (s : ℕ) :
    Except (Team × ℕ) (Team × ℕ) :=
  match simulate_matchE S o a b s with
  | .error e => .error e
  | .ok ((ga, gb), s1) =>
    if gb < ga then .ok (a, s1)
    else if ga < gb then .ok (b, s1)
    else
      match S a with
      | none => .error (a, s1)
      | some sa =>
        match S b with
        | none => .error (b, s1)
        | some sb =>
          if o.unif s1 < sa / (sa + sb + eps) then .ok (a, s1 + 1)
          else .ok (b, s1 + 1)

/-- One standings row of the mini league table: `{"pts": …, "gd": …}`
(line 162). -/
structure Row where
  pts : ℕ
  gd : ℤ
deriving DecidableEq

/-- The group table `{t: {"pts": 0, "gd": 0} for t in teams}` as an
association list keyed by team name. -/
abbrev Table := List (Team × Row)

/-- First-occurrence lookup in a string-keyed association list (Python dict
read). -/
def assocFind {β : Type} : List (String × β) → String → Option β
  | [], _ => none
  | (k, v) :: rest, t => if k = t then some v else assocFind rest t

/-- Insert-or-update for a string-keyed association list (Python dict write):
updates the first occurrence of the key, or appends a fresh entry. -/
def dinsert {β : Type} : List (String × β) → String → β → List (String × β)
  | [], k, v => [(k, v)]
  | (k0, v0) :: rest, k, v =>
    if k0 = k then (k, v) :: rest else (k0, v0) :: dinsert rest k v

/-- Read a team's row (always present for teams of the group). -/
def getRow (tbl : Table) (t : Team) : Row := (assocFind tbl t).getD ⟨0, 0⟩

/-- In-place mutation of the row of team `t` (`table[t]["…"] += …`): rewrites
the first matching entry, leaves the table unchanged if `t` is absent. -/
def updRow : Table → Team → (Row → Row) → Table
  | [], _, _ => []
  | (k, r) :: rest, t, f =>
    if k = t then (k, f r) :: rest else (k, r) :: updRow rest t f

/-- Initial table (line 162): one zero row per team. -/
def init_table (teams : List Team) : Table := teams.map (fun t => (t, ⟨0, 0⟩))

/-- One iteration of the double loop of `simulate_group` (lines 166–178):
play `a` vs `b`, add the signed margin to both goal differences, then award
3/0 or 1/1 points. -/
def play_matchE (S : Team → Option ℚ) (o : Rng) (a b : Team) (tbl : Table)
    (s : ℕ) : Except (Team × ℕ) (Table × ℕ) :=
  match simulate_matchE S o a b s with
  | .error e => .error e
  | .ok ((ga, gb), s1) =>
    let tbl1 := updRow tbl a (fun r => { r with gd := r.gd + ((ga : ℤ) - gb) })
    let tbl2 := updRow tbl1 b (fun r => { r with gd := r.gd + ((gb : ℤ) - ga) })
    let tbl3 :=
      if gb < ga then updRow tbl2 a (fun r => { r with pts := r.pts + 3 })
      else if ga < gb then updRow tbl2 b (fun r => { r with pts := r.pts + 3 })
      else updRow (updRow tbl2 a (fun r => { r with pts := r.pts + 1 })) b
          (fun r => { r with pts := r.pts + 1 })
    .ok (tbl3, s1)

/-- The pair order of the nested loops `for i … for j in range(i+1, …)`
(lines 164–165): `(0,1),(0,2),…` — each element paired with every later one. -/
def pairs : List Team → List (Team × Team)
  | [] => []
  | x :: xs => xs.map (fun y => (x, y)) ++ pairs xs

/-- Fold `play_matchE` over a list of fixtures, threading table and counter. -/
def play_matchesE (S : Team → Option ℚ) (o : Rng) :
    List (Team × Team) → Table → ℕ → Except (Team × ℕ) (Table × ℕ)
  | [], tbl, s => .ok (tbl, s)
  | (a, b) :: rest, tbl, s =>
    match play_matchE S o a b tbl s with
    | .error e => .error e
    | .ok (tbl1, s1) => play_matchesE S o rest tbl1 s1

/-- The whole round robin of `simulate_group` before the ranking step. -/
def group_tableE (S : Team → Option ℚ) (o : Rng) (teams : List Team) (s : ℕ) :
    Except (Team × ℕ) (Table × ℕ) :=
  play_matchesE S o (pairs teams) (init_table teams) s

/-- Strict lexicographic comparison of sort keys `(pts, gd, tie-break)`. -/
def keyLtB (x y : ℕ × ℤ × ℚ) : Bool :=
  decide (x.1 < y.1) ||
    (decide (x.1 = y.1) &&
      (decide (x.2.1 < y.2.1) ||
        (decide (x.2.1 = y.2.1) && decide (x.2.2 < y.2.2))))

/-- Stable descending insertion: place `x` after every element with a strictly
larger key and before the first element whose key is not larger (so an earlier
list element precedes later elements with an equal key, exactly as Python's
stable sort does). -/
def sinsertDesc (x : Team × (ℕ × ℤ × ℚ)) :
    List (Team × (ℕ × ℤ × ℚ)) → List (Team × (ℕ × ℤ × ℚ))
  | [] => [x]
  | y :: ys => if keyLtB x.2 y.2 then y :: sinsertDesc x ys else x :: y :: ys

/-- Stable sort in descending key order (the output of a stable sort is
uniquely determined by the comparator, so this insertion sort agrees with
Python's `sorted(…, reverse=True)` on every input). -/
def ssortDesc : List (Team × (ℕ × ℤ × ℚ)) → List (Team × (ℕ × ℤ × ℚ))
  | [] => []
  | x :: xs => sinsertDesc x (ssortDesc xs)

/-- `sorted(teams, key=…, reverse=True)` (lines 181–185): Python computes the
key of each list element in list order first — team at position `k` draws its
random tie-break value at consumption index `s1 + k` — then sorts stably in
descending key order. -/
def rank_teams (tbl : Table) (o : Rng) (teams : List Team) (s1 : ℕ) :
    List Team :=
  let keyed := teams.enum.map (fun p =>
    (p.2, ((getRow tbl p.2).pts, (getRow tbl p.2).gd, o.unif (s1 + p.1))))
  (ssortDesc keyed).map (fun p => p.1)

/-- `simulate_group` (lines 143–186): round robin, then ranking; returns
`(ranking[0], ranking[1])`.  The ranking consumes one uniform draw per team. -/
def simulate_groupE (S : Team → Option ℚ) (o : Rng) (teams : List Team)
    (s : ℕ) : Except (Team × ℕ) ((Team × Team) × ℕ) :=
  match group_tableE S o teams s with
  | .error e => .error e
  | .ok (tbl, s1) =>
    let ranked := rank_teams tbl o teams s1
    .ok ((ranked.getD 0 "", ranked.getD 1 ""), s1 + teams.length)

/-- The `slots` dict of `simulate_world_cup_2014`. -/
abbrev Slots := List (String × Team)

/-- The group-stage loop of `simulate_world_cup_2014` (lines 208–211):
`slots[g+"1"] = winner; slots[g+"2"] = runner_up` for each group in order. -/
def run_groupsE (S : Team → Option ℚ) (o : Rng) :
    List (String × List Team) → Slots → ℕ → Except (Team × ℕ) (Slots × ℕ)
  | [], slots, s => .ok (slots, s)
  | (g, teams) :: rest, slots, s =>
    match simulate_groupE S o teams s with
    | .error e => .error e
    | .ok ((w, r), s1) =>
      run_groupsE S o rest (dinsert (dinsert slots (g ++ "1") w) (g ++ "2") r) s1

/-- The round-of-16 loop (lines 214–216): look both slot names up and play a
knockout match, in fixture order. -/
def run_r16E (S : Team → Option ℚ) (o : Rng) (slots : Slots) :
    List (String × String) → ℕ → Except (Team × ℕ) (List Team × ℕ)
  | [], s => .ok ([], s)
  | (na, nb) :: rest, s =>
    match knockout_winnerE S o ((assocFind slots na).getD "")
        ((assocFind slots nb).getD "") s with
    | .error e => .error e
    | .ok (w, s1) =>
      match run_r16E S o slots rest s1 with
      | .error e => .error e
      | .ok (ws, s2) => .ok (w :: ws, s2)

/-- One halving round (line 220): pair consecutive winners and keep each
pair's knockout winner, left to right. -/
def halveE (S : Team → Option ℚ) (o : Rng) :
    List Team → ℕ → Except (Team × ℕ) (List Team × ℕ)
  | a :: b :: rest, s =>
    match knockout_winnerE S o a b s with
    | .error e => .error e
    | .ok (w, s1) =>
      match halveE S o rest s1 with
      | .error e => .error e
      | .ok (ws, s2) => .ok (w :: ws, s2)
  | ws, s => .ok (ws, s)

/-- `while len(winners) > 2:` (lines 219–220), with an explicit fuel bound
(the call site passes the initial list length, ample for the halving loop). -/
def knockout_roundsE (S : Team → Option ℚ) (o : Rng) :
    ℕ → List Team → ℕ → Except (Team × ℕ) (List Team × ℕ)
  | 0, ws, s => .ok (ws, s)
  | fuel + 1, ws, s =>
    if 2 < ws.length then
      match halveE S o ws s with
      | .error e => .error e
      | .ok (ws1, s1) => knockout_roundsE S o fuel ws1 s1
    else .ok (ws, s)

/-- `simulate_world_cup_2014` (lines 191–225): groups, round of 16, halving
rounds to two finalists, final; the runner-up is the losing finalist. -/
def simulate_world_cup_2014E (S : Team → Option ℚ) (o : Rng) (s : ℕ) :
    Except (Team × ℕ) ((Team × Team) × ℕ) :=
  match run_groupsE S o GROUPS [] s with
  | .error e => .error e
  | .ok (slots, s1) =>
    match run_r16E S o slots ROUND_OF_16 s1 with
    | .error e => .error e
    | .ok (winners, s2) =>
      match knockout_roundsE S o winners.length winners s2 with
      | .error e => .error e
      | .ok (finalists, s3) =>
        let f1 := finalists.getD 0 ""
        let f2 := finalists.getD 1 ""
        match knockout_winnerE S o f1 f2 s3 with
        | .error e => .error e
        | .ok (champ, s4) =>
          .ok ((champ, if champ = f1 then f2 else f1), s4)

/-- The Monte Carlo loop (lines 233–237): run `n` tournaments sequentially
against the single stream, collecting the champions in trial order. -/
def run_trialsE (S : Team → Option ℚ) (o : Rng) :
    ℕ → ℕ → Except (Team × ℕ) (List Team × ℕ)
  | 0, s => .ok ([], s)
  | n + 1, s =>
    match simulate_world_cup_2014E S o s with
    | .error e => .error e
    | .ok ((c, _), s1) =>
      match run_trialsE S o n s1 with
      | .error e => .error e
      | .ok (cs, s2) => .ok (c :: cs, s2)

/-- `p_title` (line 246) together with the `fillna(0.0)` of line 251: the
empirical champion frequency of a team, `0` when never champion (`value_counts`
normalises by the list length; for an absent team the `map` yields NaN and
`fillna` makes it `0`, which `count = 0` also gives here). -/
def p_title (champs : List Team) (t : Team) : ℚ :=
  (champs.count t : ℚ) / (champs.length : ℚ)

/-- The team column of `result` (lines 248–253): the distinct strength-table
keys restricted to the 32-team roster.  (The source additionally sorts the
rows — alphabetically, then by probability — which no claim depends on.) -/
def result_teams (keys : List Team) : List Team :=
  keys.dedup.filter (fun t => decide (t ∈ WC2014_TEAMS))

/-- The `result` table (lines 248–253): one `(team, p_title)` row per retained
team. -/
def result (keys champs : List Team) : List (Team × ℚ) :=
  (result_teams keys).map (fun t => (t, p_title champs t))

/-- Total points over all standings rows of a group table. -/
def table_pts (tbl : Table) : ℕ := (tbl.map (fun p => p.2.pts)).sum

/-- Total goal difference over all standings rows of a group table. -/
def table_gd (tbl : Table) : ℤ := (tbl.map (fun p => p.2.gd)).sum

/-- A strength table giving every team strength `0` (concrete test input). -/
def zeroStrength : Team → Option ℚ := fun _ => some 0

/-- A strength table with no entry for `Mexico` (concrete test input). -/
def noMexicoStrength : Team → Option ℚ :=
  fun t => if t = "Mexico" then none else some 0

/-- A strength table whose domain is exactly the 32-team roster (concrete
test input). -/
def rosterStrength : Team → Option ℚ :=
  fun t => if t ∈ WC2014_TEAMS then some 0 else none

/-- An rng stream whose draws are all `0` (concrete test input). -/
def zeroRng : Rng := ⟨fun _ _ => 0, fun _ => 0⟩

/-- An rng stream whose very first Poisson draw is `1` and whose other draws
are all `0` (concrete test input): the first simulated match ends 1–0. -/
def decisiveRng : Rng := ⟨fun i _ => if i = 0 then 1 else 0, fun _ => 0⟩

section Theorems

attribute [local semireducible] Rat.mul Rat.add Rat.inv Rat.sub

set_option maxRecDepth 100000

/-- **C4, counterexample.**  The claim asserts `shareB = 1 − shareA` (so that
`shareA + shareB = 1` exactly) under exact rational arithmetic.  The source
computes `share_b = sb / denom` instead, and at strengths `sa = sb = 1` this
differs from `1 − shareA`, the shares summing to `2·10¹²/(2·10¹² + 1) ≠ 1`. -/
theorem C4_share_split_cex :
    share_b 1 1 ≠ 1 - share_a 1 1 ∧ share_a 1 1 + share_b 1 1 ≠ 1 := by
  constructor <;> decide

/-- **C4 (amended).**  In `simulate_match` the goals are drawn at rates
`λA = max(0.05, 1.3·shareA)` and `λB = max(0.05, 1.3·shareB)` where
`shareA = sA/(sA+sB+ε)`, but `shareB = sB/(sA+sB+ε)` (not `1 − shareA`), so
under exact rational arithmetic `shareA + shareB = (sA+sB)/(sA+sB+ε)`, which
is strictly less than `1` whenever both strengths are nonnegative, with
`ε = 10⁻¹²`. -/
theorem C4_match_rates (S : Team → Option ℚ) (o : Rng) (a b : Team) (s : ℕ)
    (sa sb : ℚ) (ha : S a = some sa) (hb : S b = some sb) :
    simulate_matchE S o a b s =
      .ok ((o.pois s (lam_a sa sb), o.pois (s + 1) (lam_b sa sb)), s + 2) ∧
    share_a sa sb = sa / (sa + sb + eps) ∧
    share_b sa sb = sb / (sa + sb + eps) ∧
    lam_a sa sb = max (1 / 20) ((13 / 10) * share_a sa sb) ∧
    lam_b sa sb = max (1 / 20) ((13 / 10) * share_b sa sb) ∧
    share_a sa sb + share_b sa sb = (sa + sb) / (sa + sb + eps) ∧
    eps = 1 / 10 ^ 12 ∧
    (0 ≤ sa → 0 ≤ sb → share_a sa sb + share_b sa sb < 1) := by
  refine ⟨by simp [simulate_matchE, ha, hb], rfl, rfl, rfl, rfl, ?_, rfl, ?_⟩
  · simp [share_a, share_b, div_add_div_same]
  · intro hsa hsb
    have heps : (0 : ℚ) < eps := by norm_num [eps]
    have hd : 0 < sa + sb + eps := by linarith
    rw [share_a, share_b, div_add_div_same]
    exact (div_lt_one hd).mpr (by linarith)

/-- **C4 witness.** -/
theorem C4_match_rates_witness :
    zeroStrength "X" = some 0 ∧ zeroStrength "Y" = some 0 ∧
    (simulate_matchE zeroStrength zeroRng "X" "Y" 0 =
      .ok ((zeroRng.pois 0 (lam_a 0 0), zeroRng.pois (0 + 1) (lam_b 0 0)),
        0 + 2) ∧
    share_a 0 0 = 0 / (0 + 0 + eps) ∧
    share_b 0 0 = 0 / (0 + 0 + eps) ∧
    lam_a 0 0 = max (1 / 20) ((13 / 10) * share_a 0 0) ∧
    lam_b 0 0 = max (1 / 20) ((13 / 10) * share_b 0 0) ∧
    share_a 0 0 + share_b 0 0 = (0 + 0) / (0 + 0 + eps) ∧
    eps = 1 / 10 ^ 12 ∧
    (0 ≤ (0 : ℚ) → 0 ≤ (0 : ℚ) → share_a 0 0 + share_b 0 0 < 1)) ∧
    share_a 0 0 + share_b 0 0 < 1 :=
  ⟨rfl, rfl, C4_match_rates zeroStrength zeroRng "X" "Y" 0 0 0 rfl rfl,
    (C4_match_rates zeroStrength zeroRng "X" "Y" 0 0 0 rfl
      rfl).2.2.2.2.2.2.2 le_rfl le_rfl⟩

/-- **C6 (confirmed).**  `knockout_winner` returns the team with the strictly
higher goal count; on equal goal counts it draws one uniform value `u` and
returns team A iff `u < sA/(sA+sB+ε)`, else team B. -/
theorem C6_knockout_decision (S : Team → Option ℚ) (o : Rng) (a b : Team)
    (s : ℕ) (sa sb : ℚ) (ha : S a = some sa) (hb : S b = some sb) :
    (o.pois (s + 1) (lam_b sa sb) < o.pois s (lam_a sa sb) →
      knockout_winnerE S o a b s = .ok (a, s + 2)) ∧
    (o.pois s (lam_a sa sb) < o.pois (s + 1) (lam_b sa sb) →
      knockout_winnerE S o a b s = .ok (b, s + 2)) ∧
    (o.pois s (lam_a sa sb) = o.pois (s + 1) (lam_b sa sb) →
      o.unif (s + 2) < sa / (sa + sb + eps) →
      knockout_winnerE S o a b s = .ok (a, s + 3)) ∧
    (o.pois s (lam_a sa sb) = o.pois (s + 1) (lam_b sa sb) →
      ¬ o.unif (s + 2) < sa / (sa + sb + eps) →
      knockout_winnerE S o a b s = .ok (b, s + 3)) := by
  refine ⟨fun h => ?_, fun h => ?_, fun h hu => ?_, fun h hu => ?_⟩
  · simp [knockout_winnerE, simulate_matchE, ha, hb, h]
  · simp [knockout_winnerE, simulate_matchE, ha, hb, h, Nat.lt_asymm h]
  · simp [knockout_winnerE, simulate_matchE, ha, hb, h, lt_irrefl, hu]
  · simp [knockout_winnerE, simulate_matchE, ha, hb, h, lt_irrefl, hu]

/-- **C6 witness** (tie resolved in favour of team B). -/
theorem C6_knockout_decision_witness :
    zeroStrength "X" = some 0 ∧ zeroStrength "Y" = some 0 ∧
    knockout_winnerE zeroStrength zeroRng "X" "Y" 0 = .ok ("Y", 0 + 3) :=
  ⟨rfl, rfl,
    (C6_knockout_decision zeroStrength zeroRng "X" "Y" 0 0 0 rfl rfl).2.2.2
      rfl (by decide)⟩

/-- **C10 (confirmed).**  When both teams have strength exactly `0`, the
shootout probability is `0/(0+0+ε) = 0`, so a tied match is always resolved
in favour of team B (the uniform draw `u ∈ [0,1)` never satisfies `u < 0`). -/
theorem C10_zero_strength_tie (S : Team → Option ℚ) (o : Rng) (a b : Team)
    (s : ℕ) (ha : S a = some 0) (hb : S b = some 0)
    (hu : 0 ≤ o.unif (s + 2))
    (htie : o.pois s (lam_a 0 0) = o.pois (s + 1) (lam_b 0 0)) :
    (0 : ℚ) / (0 + 0 + eps) = 0 ∧
    knockout_winnerE S o a b s = .ok (b, s + 3) := by
  have hnot : ¬ o.unif (s + 2) < (0 : ℚ) := not_lt.mpr hu
  refine ⟨by simp, ?_⟩
  simp [knockout_winnerE, simulate_matchE, ha, hb, htie, lt_irrefl, hnot]

/-- **C10 witness.** -/
theorem C10_zero_strength_tie_witness :
    zeroStrength "X" = some 0 ∧ zeroStrength "Y" = some 0 ∧
    (0 : ℚ) ≤ zeroRng.unif (0 + 2) ∧
    zeroRng.pois 0 (lam_a 0 0) = zeroRng.pois (0 + 1) (lam_b 0 0) ∧
    ((0 : ℚ) / (0 + 0 + eps) = 0 ∧
      knockout_winnerE zeroStrength zeroRng "X" "Y" 0 = .ok ("Y", 0 + 3)) :=
  ⟨rfl, rfl, le_refl 0, rfl,
    C10_zero_strength_tie zeroStrength zeroRng "X" "Y" 0 rfl rfl (le_refl 0) rfl⟩

/-- **C5, counterexample.**  The claim counts exactly one rng consumption for
the goal draws.  On a decisive match (first draw `1`, second `0`, no tie) the
counter advances from `0` to `2`: the goal draws consume two rng draws (one
Poisson draw per team), not one. -/
theorem C5_rng_consumption_cex :
    knockout_winnerE zeroStrength decisiveRng "X" "Y" 0 = .ok ("X", 2) ∧
    (2 : ℕ) ≠ 1 := ⟨rfl, by decide⟩

/-- **C5 (amended).**  `knockout_winner` returns one of its two input teams
and consumes exactly two rng draws for the goals (one Poisson draw per team)
plus, on ties only, exactly one additional draw for the shootout; the rng
counter after the call is a fixed function of the pre-call counter and the
inputs. -/
theorem C5_knockout_rng (S : Team → Option ℚ) (o : Rng) (a b : Team) (s : ℕ)
    (sa sb : ℚ) (ha : S a = some sa) (hb : S b = some sb) :
    knockout_winnerE S o a b s =
      .ok (a, if o.pois s (lam_a sa sb) = o.pois (s + 1) (lam_b sa sb)
        then s + 3 else s + 2) ∨
    knockout_winnerE S o a b s =
      .ok (b, if o.pois s (lam_a sa sb) = o.pois (s + 1) (lam_b sa sb)
        then s + 3 else s + 2) := by
  rcases Nat.lt_trichotomy (o.pois s (lam_a sa sb))
      (o.pois (s + 1) (lam_b sa sb)) with h | h | h
  · right
    simp [knockout_winnerE, simulate_matchE, ha, hb, h, Nat.lt_asymm h,
      Nat.ne_of_lt h]
  · by_cases hu : o.unif (s + 2) < sa / (sa + sb + eps)
    · left
      simp [knockout_winnerE, simulate_matchE, ha, hb, h, lt_irrefl, hu]
    · right
      simp [knockout_winnerE, simulate_matchE, ha, hb, h, lt_irrefl, hu]
  · left
    simp [knockout_winnerE, simulate_matchE, ha, hb, h, Nat.lt_asymm h,
      (Nat.ne_of_lt h).symm]

/-- **C5 witness** (tie at zero strengths: team B wins after three draws). -/
theorem C5_knockout_rng_witness :
    zeroStrength "X" = some 0 ∧ zeroStrength "Y" = some 0 ∧
    (knockout_winnerE zeroStrength zeroRng "X" "Y" 0 =
      .ok ("X", if zeroRng.pois 0 (lam_a 0 0) = zeroRng.pois (0 + 1) (lam_b 0 0)
        then 0 + 3 else 0 + 2) ∨
    knockout_winnerE zeroStrength zeroRng "X" "Y" 0 =
      .ok ("Y", if zeroRng.pois 0 (lam_a 0 0) = zeroRng.pois (0 + 1) (lam_b 0 0)
        then 0 + 3 else 0 + 2)) :=
  ⟨rfl, rfl, C5_knockout_rng zeroStrength zeroRng "X" "Y" 0 0 0 rfl rfl⟩

/-- **C2, counterexample.**  With a strength table lacking `Mexico`, the run
(one trial) aborts with the `KeyError` for `Mexico` only after 2 rng
consumptions (the Poisson draws of the preceding Brazil–Croatia match):
randomness is consumed before the error is raised, so the strength table is
not validated eagerly before trials execute. -/
theorem C2_eager_validation_cex :
    run_trialsE noMexicoStrength zeroRng 1 0 = .error ("Mexico", 2) ∧
    (2 : ℕ) ≠ 0 := ⟨rfl, by decide⟩

/-- **C2 (amended).**  A missing strength entry does abort the whole run with
an uncaught lookup error naming the team, but lazily: the error is raised at
the first simulated match that looks the team up (at whatever consumption
counter has been reached by then, with all earlier matches' randomness already
consumed), during the first trial, and propagates out of the Monte Carlo
loop. -/
theorem C2_missing_strength_lazy (S : Team → Option ℚ) (o : Rng) (a b : Team)
    (n s s0 : ℕ) (e : Team × ℕ) (hn : 0 < n) (ha : S a = none) :
    simulate_matchE S o a b s0 = .error (a, s0) ∧
    (simulate_world_cup_2014E S o s = .error e →
      run_trialsE S o n s = .error e) := by
  constructor
  · simp [simulate_matchE, ha]
  · intro h
    cases n with
    | zero => exact absurd hn (lt_irrefl 0)
    | succ m => simp [run_trialsE, h]

/-- **C2 witness.** -/
theorem C2_missing_strength_lazy_witness :
    0 < 1 ∧ noMexicoStrength "Mexico" = none ∧
    simulate_matchE noMexicoStrength zeroRng "Mexico" "Brazil" 7 =
      .error ("Mexico", 7) ∧
    run_trialsE noMexicoStrength zeroRng 1 0 = .error ("Mexico", 2) :=
  ⟨Nat.one_pos, rfl,
    (C2_missing_strength_lazy noMexicoStrength zeroRng "Mexico" "Brazil" 1 0 7
      ("Mexico", 2) Nat.one_pos rfl).1,
    (C2_missing_strength_lazy noMexicoStrength zeroRng "Mexico" "Brazil" 1 0 7
      ("Mexico", 2) Nat.one_pos rfl).2 rfl⟩

/-- **C3, counterexample.**  A zero trial count is not rejected: the Monte
Carlo loop simply runs zero times and the aggregation produces an all-zero
probability table (summing to `0`, not `1`), instead of a fatal configuration
error. -/
theorem C3_zero_trials_cex :
    run_trialsE zeroStrength zeroRng 0 0 = .ok ([], 0) ∧
    ((result_teams ["Brazil"]).map (p_title [])).sum = 0 ∧ (0 : ℚ) ≠ 1 := by
  refine ⟨rfl, by decide, by norm_num⟩

/-- **C3 (amended).**  The trial count is never validated: with zero trials
(and `range` treats a negative count the same way) the loop body never runs,
the run completes without error, and every reported probability is `0`
(`0/0 = 0` in the empty `value_counts`), so the probabilities sum to `0`. -/
theorem C3_zero_trials_completes (S : Team → Option ℚ) (o : Rng) (s : ℕ)
    (keys : List Team) :
    run_trialsE S o 0 s = .ok ([], s) ∧
    ((result_teams keys).map (p_title [])).sum = 0 := by
  refine ⟨rfl, ?_⟩
  apply List.sum_eq_zero
  intro x hx
  simp only [List.mem_map] at hx
  obtain ⟨t, -, rfl⟩ := hx
  simp [p_title]

/-- **C8 (confirmed).**  Every roster team present in the strength table
appears in the aggregate `result`, and a team never observed as champion is
reported with probability exactly `0` rather than omitted.  (For the run to
produce a result at all, every roster team must be in the strength table —
each plays in its group — so each of the 32 roster teams appears.) -/
theorem C8_roster_reported (keys champs : List Team) (t : Team)
    (h1 : t ∈ WC2014_TEAMS) (h2 : t ∈ keys) :
    (t, p_title champs t) ∈ result keys champs ∧
    (t ∉ champs → p_title champs t = 0) := by
  constructor
  · apply List.mem_map_of_mem
    simp only [result_teams, List.mem_filter, List.mem_dedup]
    exact ⟨h2, decide_eq_true h1⟩
  · intro h3
    have hc : champs.count t = 0 := List.count_eq_zero.mpr h3
    simp [p_title, hc]

/-- **C8 witness.** -/
theorem C8_roster_reported_witness :
    "Brazil" ∈ WC2014_TEAMS ∧ "Brazil" ∈ ["Brazil"] ∧
    ("Brazil", p_title [] "Brazil") ∈ result ["Brazil"] [] ∧
    p_title [] "Brazil" = 0 :=
  ⟨by decide, by decide,
    (C8_roster_reported ["Brazil"] [] "Brazil" (by decide) (by decide)).1,
    (C8_roster_reported ["Brazil"] [] "Brazil" (by decide) (by decide)).2
      (by decide)⟩

theorem keys_updRow (tbl : Table) (t : Team) (f : Row → Row) :
    (updRow tbl t f).map Prod.fst = tbl.map Prod.fst := by
  induction tbl with
  | nil => rfl
  | cons p rest ih =>
    obtain ⟨k, r⟩ := p
    simp only [updRow]
    split <;> simp [ih]

theorem table_pts_updRow_pts (tbl : Table) (t : Team) (d : ℕ)
    (h : t ∈ tbl.map Prod.fst) :
    table_pts (updRow tbl t (fun r => { r with pts := r.pts + d })) =
      table_pts tbl + d := by
  induction tbl with
  | nil => simp at h
  | cons p rest ih =>
    obtain ⟨k, r⟩ := p
    by_cases hk : k = t
    · simp only [updRow, if_pos hk, table_pts, List.map_cons, List.sum_cons]
      omega
    · have ht : t ∈ rest.map Prod.fst := by
        rw [List.map_cons] at h
        rcases List.mem_cons.mp h with h' | h'
        · exact absurd h'.symm hk
        · exact h'
      simp only [updRow, if_neg hk, table_pts, List.map_cons, List.sum_cons]
      have := ih ht
      simp only [table_pts] at this
      omega

theorem table_gd_updRow_gd (tbl : Table) (t : Team) (d : ℤ)
    (h : t ∈ tbl.map Prod.fst) :
    table_gd (updRow tbl t (fun r => { r with gd := r.gd + d })) =
      table_gd tbl + d := by
  induction tbl with
  | nil => simp at h
  | cons p rest ih =>
    obtain ⟨k, r⟩ := p
    by_cases hk : k = t
    · simp only [updRow, if_pos hk, table_gd, List.map_cons, List.sum_cons]
      ring
    · have ht : t ∈ rest.map Prod.fst := by
        rw [List.map_cons] at h
        rcases List.mem_cons.mp h with h' | h'
        · exact absurd h'.symm hk
        · exact h'
      simp only [updRow, if_neg hk, table_gd, List.map_cons, List.sum_cons]
      have := ih ht
      simp only [table_gd] at this
      omega

theorem table_pts_updRow_keep (tbl : Table) (t : Team) (f : Row → Row)
    (hf : ∀ r, (f r).pts = r.pts) :
    table_pts (updRow tbl t f) = table_pts tbl := by
  induction tbl with
  | nil => rfl
  | cons p rest ih =>
    obtain ⟨k, r⟩ := p
    simp only [updRow]
    split
    · simp [table_pts, hf]
    · simp only [table_pts, List.map_cons, List.sum_cons]
      have := ih
      simp only [table_pts] at this
      omega

theorem table_gd_updRow_keep (tbl : Table) (t : Team) (f : Row → Row)
    (hf : ∀ r, (f r).gd = r.gd) :
    table_gd (updRow tbl t f) = table_gd tbl := by
  induction tbl with
  | nil => rfl
  | cons p rest ih =>
    obtain ⟨k, r⟩ := p
    simp only [updRow]
    split
    · simp [table_gd, hf]
    · simp only [table_gd, List.map_cons, List.sum_cons]
      have := ih
      simp only [table_gd] at this
      omega

theorem table_pts_updRow_gdonly (tbl : Table) (t : Team) (d : ℤ) :
    table_pts (updRow tbl t (fun r => { r with gd := r.gd + d })) =
      table_pts tbl :=
  table_pts_updRow_keep tbl t (fun r => { r with gd := r.gd + d })
    (fun _ => rfl)

theorem table_gd_updRow_ptsonly (tbl : Table) (t : Team) (d : ℕ) :
    table_gd (updRow tbl t (fun r => { r with pts := r.pts + d })) =
      table_gd tbl :=
  table_gd_updRow_keep tbl t (fun r => { r with pts := r.pts + d })
    (fun _ => rfl)

theorem play_matchE_step (S : Team → Option ℚ) (o : Rng) (a b : Team)
    (tbl : Table) (s : ℕ) (tbl2 : Table) (s1 : ℕ)
    (hok : play_matchE S o a b tbl s = .ok (tbl2, s1))
    (hak : a ∈ tbl.map Prod.fst) (hbk : b ∈ tbl.map Prod.fst) :
    tbl2.map Prod.fst = tbl.map Prod.fst ∧
    table_gd tbl2 = table_gd tbl ∧
    (table_pts tbl2 = table_pts tbl + 3 ∨ table_pts tbl2 = table_pts tbl + 2) := by
  cases hm : simulate_matchE S o a b s with
  | error e => simp [play_matchE, hm] at hok
  | ok v =>
    obtain ⟨⟨ga, gb⟩, s1'⟩ := v
    simp only [play_matchE, hm] at hok
    have hkeysg : (updRow (updRow tbl a
          (fun r => { r with gd := r.gd + ((ga : ℤ) - gb) })) b
          (fun r => { r with gd := r.gd + ((gb : ℤ) - ga) })).map Prod.fst =
        tbl.map Prod.fst := by
      rw [keys_updRow, keys_updRow]
    have hgdg : table_gd (updRow (updRow tbl a
          (fun r => { r with gd := r.gd + ((ga : ℤ) - gb) })) b
          (fun r => { r with gd := r.gd + ((gb : ℤ) - ga) })) =
        table_gd tbl := by
      rw [table_gd_updRow_gd _ _ _ (by rw [keys_updRow]; exact hbk),
        table_gd_updRow_gd _ _ _ hak]
      ring
    have hptsg : table_pts (updRow (updRow tbl a
          (fun r => { r with gd := r.gd + ((ga : ℤ) - gb) })) b
          (fun r => { r with gd := r.gd + ((gb : ℤ) - ga) })) =
        table_pts tbl := by
      rw [table_pts_updRow_gdonly, table_pts_updRow_gdonly]
    by_cases h1 : gb < ga
    · rw [if_pos h1] at hok
      injection hok with hp
      injection hp with he hs
      subst he
      refine ⟨by rw [keys_updRow, hkeysg], ?_, ?_⟩
      · rw [table_gd_updRow_ptsonly, hgdg]
      · left
        rw [table_pts_updRow_pts _ _ _ (by rw [hkeysg]; exact hak), hptsg]
    · by_cases h2 : ga < gb
      · rw [if_neg h1, if_pos h2] at hok
        injection hok with hp
        injection hp with he hs
        subst he
        refine ⟨by rw [keys_updRow, hkeysg], ?_, ?_⟩
        · rw [table_gd_updRow_ptsonly, hgdg]
        · left
          rw [table_pts_updRow_pts _ _ _ (by rw [hkeysg]; exact hbk), hptsg]
      · rw [if_neg h1, if_neg h2] at hok
        injection hok with hp
        injection hp with he hs
        subst he
        refine ⟨by rw [keys_updRow, keys_updRow, hkeysg], ?_, ?_⟩
        · rw [table_gd_updRow_ptsonly, table_gd_updRow_ptsonly, hgdg]
        · right
          rw [table_pts_updRow_pts _ _ _
              (by rw [keys_updRow, hkeysg]; exact hbk),
            table_pts_updRow_pts _ _ _ (by rw [hkeysg]; exact hak), hptsg]

theorem play_matchesE_bounds (S : Team → Option ℚ) (o : Rng) :
    ∀ (ps : List (Team × Team)) (tbl : Table) (s : ℕ) (tbl2 : Table) (s2 : ℕ),
    (∀ p ∈ ps, p.1 ∈ tbl.map Prod.fst ∧ p.2 ∈ tbl.map Prod.fst) →
    play_matchesE S o ps tbl s = .ok (tbl2, s2) →
    tbl2.map Prod.fst = tbl.map Prod.fst ∧
    table_gd tbl2 = table_gd tbl ∧
    table_pts tbl + 2 * ps.length ≤ table_pts tbl2 ∧
    table_pts tbl2 ≤ table_pts tbl + 3 * ps.length := by
  intro ps
  induction ps with
  | nil =>
    intro tbl s tbl2 s2 _ hok
    simp only [play_matchesE, Except.ok.injEq, Prod.mk.injEq] at hok
    obtain ⟨⟨rfl, rfl⟩⟩ := hok
    simp
  | cons p rest ih =>
    intro tbl s tbl2 s2 hmem hok
    obtain ⟨a, b⟩ := p
    cases hm : play_matchE S o a b tbl s with
    | error e => simp [play_matchesE, hm] at hok
    | ok v =>
      obtain ⟨tbl1, s1⟩ := v
      simp only [play_matchesE, hm] at hok
      have hstep := play_matchE_step S o a b tbl s tbl1 s1 hm
        (hmem _ (List.mem_cons_self _ _)).1 (hmem _ (List.mem_cons_self _ _)).2
      have hrest := ih tbl1 s1 tbl2 s2
        (fun q hq => by rw [hstep.1]; exact hmem q (List.mem_cons_of_mem _ hq))
        hok
      refine ⟨hrest.1.trans hstep.1, hrest.2.1.trans hstep.2.1, ?_, ?_⟩ <;>
        · rcases hstep.2.2 with h | h <;>
            (simp only [List.length_cons]; omega)

theorem pairs_mem : ∀ (l : List Team) (a b : Team), (a, b) ∈ pairs l →
    a ∈ l ∧ b ∈ l := by
  intro l
  induction l with
  | nil => intro a b h; simp [pairs] at h
  | cons x xs ih =>
    intro a b h
    simp only [pairs, List.mem_append, List.mem_map] at h
    rcases h with ⟨y, hy, he⟩ | h
    · obtain ⟨rfl, rfl⟩ := Prod.mk.injEq .. ▸ he
      exact ⟨List.mem_cons_self _ _, List.mem_cons_of_mem _ hy⟩
    · exact ⟨List.mem_cons_of_mem _ (ih a b h).1,
        List.mem_cons_of_mem _ (ih a b h).2⟩

theorem pairs_length_four (l : List Team) (h : l.length = 4) :
    (pairs l).length = 6 := by
  rcases l with _ | ⟨a, _ | ⟨b, _ | ⟨c, _ | ⟨d, _ | ⟨e, l⟩⟩⟩⟩⟩
  · simp at h
  · simp at h
  · simp at h
  · simp at h
  · rfl
  · simp only [List.length_cons] at h
    omega

theorem init_table_keys (teams : List Team) :
    (init_table teams).map Prod.fst = teams := by
  induction teams with
  | nil => rfl
  | cons t ts ih =>
    simp only [init_table, List.map_cons] at ih ⊢
    rw [ih]

theorem table_pts_init (teams : List Team) :
    table_pts (init_table teams) = 0 := by
  apply List.sum_eq_zero
  intro x hx
  simp only [init_table, table_pts, List.map_map, List.mem_map] at hx
  obtain ⟨t, -, rfl⟩ := hx
  rfl

theorem table_gd_init (teams : List Team) :
    table_gd (init_table teams) = 0 := by
  apply List.sum_eq_zero
  intro x hx
  simp only [init_table, table_gd, List.map_map, List.mem_map] at hx
  obtain ⟨t, -, rfl⟩ := hx
  rfl

/-- **C1, counterexample.**  The claim says the total points across the
group's standings rows always equal exactly 12.  With a concrete rng stream
whose first match ends 1–0 (and all later matches 0–0), the group total is
13: a decisive match contributes 3 points, not 2. -/
theorem C1_group_points_cex :
    (match group_tableE zeroStrength decisiveRng
        ["Brazil", "Croatia", "Mexico", "Cameroon"] 0 with
      | .ok (tbl, _) => table_pts tbl
      | .error _ => 0) = 13 ∧ (13 : ℕ) ≠ 12 := ⟨rfl, by decide⟩

/-- **C1 (amended).**  For every group simulation over 4 teams, the total
points accumulated across the group's 4 standings rows after all 6 matches
lies between 12 and 18 inclusive, rather than always equalling exactly 12. -/
theorem C1_group_points_total (S : Team → Option ℚ) (o : Rng)
    (teams : List Team) (s : ℕ) (tbl : Table) (s1 : ℕ)
    (hlen : teams.length = 4)
    (hok : group_tableE S o teams s = .ok (tbl, s1)) :
    12 ≤ table_pts tbl ∧ table_pts tbl ≤ 18 := by
  have hmem : ∀ p ∈ pairs teams, p.1 ∈ (init_table teams).map Prod.fst ∧
      p.2 ∈ (init_table teams).map Prod.fst := by
    intro p hp
    rw [init_table_keys]
    exact pairs_mem teams p.1 p.2 hp
  have h := play_matchesE_bounds S o (pairs teams) (init_table teams) s tbl s1
    hmem hok
  have hL : (pairs teams).length = 6 := pairs_length_four teams hlen
  have h0 := table_pts_init teams
  omega

/-- **C1 witness.** -/
theorem C1_group_points_total_witness :
    (["Brazil", "Croatia", "Mexico", "Cameroon"] : List Team).length = 4 ∧
    group_tableE zeroStrength zeroRng
        ["Brazil", "Croatia", "Mexico", "Cameroon"] 0 =
      .ok ([("Brazil", ⟨3, 0⟩), ("Croatia", ⟨3, 0⟩), ("Mexico", ⟨3, 0⟩),
        ("Cameroon", ⟨3, 0⟩)], 12) ∧
    (12 ≤ table_pts [("Brazil", ⟨3, 0⟩), ("Croatia", ⟨3, 0⟩),
        ("Mexico", ⟨3, 0⟩), ("Cameroon", ⟨3, 0⟩)] ∧
      table_pts [("Brazil", ⟨3, 0⟩), ("Croatia", ⟨3, 0⟩), ("Mexico", ⟨3, 0⟩),
        ("Cameroon", ⟨3, 0⟩)] ≤ 18) :=
  ⟨rfl, rfl,
    C1_group_points_total zeroStrength zeroRng
      ["Brazil", "Croatia", "Mexico", "Cameroon"] 0 _ 12 rfl rfl⟩

/-- **C9 (confirmed).**  After the full round robin of a group, the
accumulated goal differences over the standings rows sum to exactly 0: every
match adds `(gA − gB)` to one row and `(gB − gA)` to another. -/
theorem C9_group_gd_zero (S : Team → Option ℚ) (o : Rng) (teams : List Team)
    (s : ℕ) (tbl : Table) (s1 : ℕ)
    (hok : group_tableE S o teams s = .ok (tbl, s1)) :
    table_gd tbl = 0 := by
  have hmem : ∀ p ∈ pairs teams, p.1 ∈ (init_table teams).map Prod.fst ∧
      p.2 ∈ (init_table teams).map Prod.fst := by
    intro p hp
    rw [init_table_keys]
    exact pairs_mem teams p.1 p.2 hp
  have h := play_matchesE_bounds S o (pairs teams) (init_table teams) s tbl s1
    hmem hok
  rw [h.2.1, table_gd_init]

/-- **C9 witness.** -/
theorem C9_group_gd_zero_witness :
    group_tableE zeroStrength zeroRng
        ["Spain", "Netherlands", "Chile", "Australia"] 0 =
      .ok ([("Spain", ⟨3, 0⟩), ("Netherlands", ⟨3, 0⟩), ("Chile", ⟨3, 0⟩),
        ("Australia", ⟨3, 0⟩)], 12) ∧
    table_gd [("Spain", ⟨3, 0⟩), ("Netherlands", ⟨3, 0⟩), ("Chile", ⟨3, 0⟩),
      ("Australia", ⟨3, 0⟩)] = 0 :=
  ⟨rfl,
    C9_group_gd_zero zeroStrength zeroRng
      ["Spain", "Netherlands", "Chile", "Australia"] 0 _ 12 rfl⟩

theorem simulate_matchE_ok_isSome (S : Team → Option ℚ) (o : Rng)
    (a b : Team) (s : ℕ) (v : (ℕ × ℕ) × ℕ)
    (hm : simulate_matchE S o a b s = .ok v) :
    (S a).isSome ∧ (S b).isSome := by
  by_cases ha : (S a).isSome
  · refine ⟨ha, ?_⟩
    by_cases hb : (S b).isSome
    · exact hb
    · rw [Option.not_isSome_iff_eq_none] at hb
      obtain ⟨sa, ha'⟩ := Option.isSome_iff_exists.mp ha
      simp [simulate_matchE, ha', hb] at hm
  · rw [Option.not_isSome_iff_eq_none] at ha
    simp [simulate_matchE, ha] at hm

theorem knockout_winnerE_ok (S : Team → Option ℚ) (o : Rng) (a b : Team)
    (s : ℕ) (w : Team) (s1 : ℕ)
    (hok : knockout_winnerE S o a b s = .ok (w, s1)) :
    (w = a ∨ w = b) ∧ (S w).isSome := by
  cases hm : simulate_matchE S o a b s with
  | error e => simp [knockout_winnerE, hm] at hok
  | ok v =>
    obtain ⟨⟨ga, gb⟩, s1'⟩ := v
    have hsome := simulate_matchE_ok_isSome S o a b s _ hm
    obtain ⟨sa, ha⟩ := Option.isSome_iff_exists.mp hsome.1
    obtain ⟨sb, hb⟩ := Option.isSome_iff_exists.mp hsome.2
    simp only [knockout_winnerE, hm, ha, hb] at hok
    by_cases h1 : gb < ga
    · rw [if_pos h1] at hok
      injection hok with hp
      injection hp with he hs
      subst he
      exact ⟨Or.inl rfl, hsome.1⟩
    · by_cases h2 : ga < gb
      · rw [if_neg h1, if_pos h2] at hok
        injection hok with hp
        injection hp with he hs
        subst he
        exact ⟨Or.inr rfl, hsome.2⟩
      · rw [if_neg h1, if_neg h2] at hok
        by_cases hu : o.unif s1' < sa / (sa + sb + eps)
        · rw [if_pos hu] at hok
          injection hok with hp
          injection hp with he hs
          subst he
          exact ⟨Or.inl rfl, hsome.1⟩
        · rw [if_neg hu] at hok
          injection hok with hp
          injection hp with he hs
          subst he
          exact ⟨Or.inr rfl, hsome.2⟩

theorem sinsertDesc_perm (x : Team × (ℕ × ℤ × ℚ))
    (l : List (Team × (ℕ × ℤ × ℚ))) : (sinsertDesc x l).Perm (x :: l) := by
  induction l with
  | nil => exact List.Perm.refl _
  | cons y ys ih =>
    simp only [sinsertDesc]
    split
    · exact (ih.cons y).trans (List.Perm.swap x y ys)
    · exact List.Perm.refl _

theorem ssortDesc_perm (l : List (Team × (ℕ × ℤ × ℚ))) :
    (ssortDesc l).Perm l := by
  induction l with
  | nil => exact List.Perm.refl _
  | cons x xs ih => exact (sinsertDesc_perm x (ssortDesc xs)).trans (ih.cons x)

theorem rank_teams_perm (tbl : Table) (o : Rng) (teams : List Team) (s1 : ℕ) :
    (rank_teams tbl o teams s1).Perm teams := by
  unfold rank_teams
  have h := (ssortDesc_perm (teams.enum.map (fun p =>
    (p.2, ((getRow tbl p.2).pts, (getRow tbl p.2).gd,
      o.unif (s1 + p.1)))))).map Prod.fst
  have h2 : (teams.enum.map (fun p =>
      (p.2, ((getRow tbl p.2).pts, (getRow tbl p.2).gd,
        o.unif (s1 + p.1))))).map Prod.fst = teams := by
    rw [List.map_map]
    have : (Prod.fst ∘ fun p : ℕ × Team =>
        (p.2, ((getRow tbl p.2).pts, (getRow tbl p.2).gd,
          o.unif (s1 + p.1)))) = Prod.snd := rfl
    rw [this, show List.enum teams = List.enumFrom 0 teams from rfl,
      List.enumFrom_map_snd]
  rw [h2] at h
  exact h

theorem simulate_groupE_ok_mem (S : Team → Option ℚ) (o : Rng)
    (teams : List Team) (s : ℕ) (w r : Team) (s1 : ℕ)
    (hok : simulate_groupE S o teams s = .ok ((w, r), s1))
    (hlen : 2 ≤ teams.length) : w ∈ teams ∧ r ∈ teams := by
  cases hg : group_tableE S o teams s with
  | error e => simp [simulate_groupE, hg] at hok
  | ok v =>
    obtain ⟨tbl, s1'⟩ := v
    simp only [simulate_groupE, hg] at hok
    injection hok with hp
    injection hp with he hs
    injection he with hw hr
    have hperm := rank_teams_perm tbl o teams s1'
    have hlenr : (rank_teams tbl o teams s1').length = teams.length :=
      hperm.length_eq
    have hmem : ∀ i : ℕ, i < 2 →
        (rank_teams tbl o teams s1').getD i "" ∈ teams := by
      intro i hi
      have hil : i < (rank_teams tbl o teams s1').length := by omega
      rw [List.getD_eq_getElem?_getD, List.getElem?_eq_getElem hil]
      exact hperm.mem_iff.mp (List.getElem_mem hil)
    subst hw hr
    exact ⟨hmem 0 (by omega), hmem 1 (by omega)⟩

theorem assocFind_dinsert {β : Type} (m : List (String × β)) (k k' : String)
    (v : β) :
    assocFind (dinsert m k v) k' =
      if k = k' then some v else assocFind m k' := by
  induction m with
  | nil => simp [dinsert, assocFind]
  | cons p rest ih =>
    obtain ⟨k0, v0⟩ := p
    simp only [dinsert]
    by_cases h0 : k0 = k
    · subst h0
      by_cases h1 : k0 = k'
      · subst h1
        simp [assocFind]
      · simp [assocFind, h1]
    · rw [if_neg h0]
      by_cases h1 : k0 = k'
      · subst h1
        rw [if_neg (fun hkk => h0 hkk.symm)]
        simp [assocFind]
      · simp [assocFind, h1, ih]

theorem run_groupsE_isSome_mono (S : Team → Option ℚ) (o : Rng) :
    ∀ (gs : List (String × List Team)) (slots : Slots) (s : ℕ)
      (slots2 : Slots) (s2 : ℕ),
    run_groupsE S o gs slots s = .ok (slots2, s2) →
    ∀ k : String, (assocFind slots k).isSome → (assocFind slots2 k).isSome := by
  intro gs
  induction gs with
  | nil =>
    intro slots s slots2 s2 hok k hk
    simp only [run_groupsE] at hok
    injection hok with hp
    injection hp with he hs
    subst he
    exact hk
  | cons g rest ih =>
    intro slots s slots2 s2 hok k hk
    obtain ⟨glabel, gteams⟩ := g
    cases hg : simulate_groupE S o gteams s with
    | error e => simp [run_groupsE, hg] at hok
    | ok v =>
      obtain ⟨⟨w, r⟩, s1⟩ := v
      simp only [run_groupsE, hg] at hok
      refine ih _ _ _ _ hok k ?_
      rw [assocFind_dinsert, assocFind_dinsert]
      split
      · simp
      · split
        · simp
        · exact hk

theorem run_groupsE_coverage (S : Team → Option ℚ) (o : Rng) :
    ∀ (gs : List (String × List Team)) (slots : Slots) (s : ℕ)
      (slots2 : Slots) (s2 : ℕ),
    run_groupsE S o gs slots s = .ok (slots2, s2) →
    ∀ g ∈ gs, (assocFind slots2 (g.1 ++ "1")).isSome ∧
      (assocFind slots2 (g.1 ++ "2")).isSome := by
  intro gs
  induction gs with
  | nil => intro slots s slots2 s2 _ g hg; simp at hg
  | cons g0 rest ih =>
    intro slots s slots2 s2 hok g hg
    obtain ⟨glabel, gteams⟩ := g0
    cases hgr : simulate_groupE S o gteams s with
    | error e => simp [run_groupsE, hgr] at hok
    | ok v =>
      obtain ⟨⟨w, r⟩, s1⟩ := v
      simp only [run_groupsE, hgr] at hok
      rcases List.mem_cons.mp hg with rfl | hg'
      · constructor
        · refine run_groupsE_isSome_mono S o rest _ _ _ _ hok _ ?_
          rw [assocFind_dinsert, assocFind_dinsert]
          split
          · simp
          · rw [if_pos rfl]
            simp
        · refine run_groupsE_isSome_mono S o rest _ _ _ _ hok _ ?_
          rw [assocFind_dinsert, if_pos rfl]
          simp
      · exact ih _ _ _ _ hok g hg'

theorem run_groupsE_values (S : Team → Option ℚ) (o : Rng) (P : Team → Prop) :
    ∀ (gs : List (String × List Team)) (slots : Slots) (s : ℕ)
      (slots2 : Slots) (s2 : ℕ),
    (∀ g ∈ gs, 2 ≤ g.2.length ∧ ∀ t ∈ g.2, P t) →
    (∀ k v, assocFind slots k = some v → P v) →
    run_groupsE S o gs slots s = .ok (slots2, s2) →
    ∀ k v, assocFind slots2 k = some v → P v := by
  intro gs
  induction gs with
  | nil =>
    intro slots s slots2 s2 _ hinit hok
    simp only [run_groupsE] at hok
    injection hok with hp
    injection hp with he hs
    subst he
    exact hinit
  | cons g0 rest ih =>
    intro slots s slots2 s2 hgs hinit hok
    obtain ⟨glabel, gteams⟩ := g0
    cases hgr : simulate_groupE S o gteams s with
    | error e => simp [run_groupsE, hgr] at hok
    | ok v =>
      obtain ⟨⟨w, r⟩, s1⟩ := v
      simp only [run_groupsE, hgr] at hok
      have hg0 := hgs _ (List.mem_cons_self _ _)
      have hwr := simulate_groupE_ok_mem S o gteams s w r s1 hgr hg0.1
      refine ih _ _ _ _ (fun g hg => hgs g (List.mem_cons_of_mem _ hg)) ?_ hok
      intro k v hfind
      rw [assocFind_dinsert] at hfind
      split at hfind
      · injection hfind with hv
        subst hv
        exact hg0.2 _ hwr.2
      · rw [assocFind_dinsert] at hfind
        split at hfind
        · injection hfind with hv
          subst hv
          exact hg0.2 _ hwr.1
        · exact hinit k v hfind

theorem run_r16E_mem (S : Team → Option ℚ) (o : Rng) (slots : Slots)
    (P : Team → Prop) :
    ∀ (fixtures : List (String × String)) (s : ℕ) (ws : List Team) (s2 : ℕ),
    (∀ q ∈ fixtures, P ((assocFind slots q.1).getD "") ∧
      P ((assocFind slots q.2).getD "")) →
    run_r16E S o slots fixtures s = .ok (ws, s2) →
    ws.length = fixtures.length ∧ ∀ w ∈ ws, P w := by
  intro fixtures
  induction fixtures with
  | nil =>
    intro s ws s2 _ hok
    simp only [run_r16E] at hok
    injection hok with hp
    injection hp with he hs
    subst he
    simp
  | cons q rest ih =>
    intro s ws s2 hfix hok
    obtain ⟨na, nb⟩ := q
    cases hkw : knockout_winnerE S o ((assocFind slots na).getD "")
        ((assocFind slots nb).getD "") s with
    | error e => simp [run_r16E, hkw] at hok
    | ok v =>
      obtain ⟨w, s1⟩ := v
      simp only [run_r16E, hkw] at hok
      cases hrest : run_r16E S o slots rest s1 with
      | error e => simp [hrest] at hok
      | ok v2 =>
        obtain ⟨ws', s2'⟩ := v2
        simp only [hrest] at hok
        injection hok with hp
        injection hp with he hs
        subst he
        have hq := hfix _ (List.mem_cons_self _ _)
        have hw := knockout_winnerE_ok S o _ _ s w s1 hkw
        have hr := ih s1 ws' s2'
          (fun q' hq' => hfix q' (List.mem_cons_of_mem _ hq')) hrest
        refine ⟨by simp [hr.1], ?_⟩
        intro x hx
        rcases List.mem_cons.mp hx with rfl | hx'
        · rcases hw.1 with rfl | rfl
          · exact hq.1
          · exact hq.2
        · exact hr.2 x hx'

theorem halveE_spec (S : Team → Option ℚ) (o : Rng) :
    ∀ (k : ℕ) (ws : List Team) (s : ℕ) (ws' : List Team) (s' : ℕ),
    ws.length = 2 * k → halveE S o ws s = .ok (ws', s') →
    ws'.length = k ∧ ∀ w ∈ ws', w ∈ ws := by
  intro k
  induction k with
  | zero =>
    intro ws s ws' s' hlen hok
    have hnil : ws = [] := List.eq_nil_of_length_eq_zero (by omega)
    subst hnil
    rw [show halveE S o [] s = .ok ([], s) from rfl] at hok
    injection hok with hp
    injection hp with he hs
    subst he
    simp
  | succ m ih =>
    intro ws s ws' s' hlen hok
    rcases ws with _ | ⟨a, _ | ⟨b, rest⟩⟩
    · simp at hlen
    · simp at hlen
      omega
    · cases hkw : knockout_winnerE S o a b s with
      | error e => simp [halveE, hkw] at hok
      | ok v =>
        obtain ⟨w, s1⟩ := v
        simp only [halveE, hkw] at hok
        cases hrest : halveE S o rest s1 with
        | error e => simp [hrest] at hok
        | ok v2 =>
          obtain ⟨ws2, s2'⟩ := v2
          simp only [hrest] at hok
          injection hok with hp
          injection hp with he hs
          subst he
          have hw := knockout_winnerE_ok S o a b s w s1 hkw
          have hr := ih rest s1 ws2 s2'
            (by simp only [List.length_cons] at hlen; omega) hrest
          refine ⟨by simp [hr.1], ?_⟩
          intro x hx
          rcases List.mem_cons.mp hx with rfl | hx'
          · rcases hw.1 with rfl | rfl
            · exact List.mem_cons_self _ _
            · exact List.mem_cons_of_mem _ (List.mem_cons_self _ _)
          · exact List.mem_cons_of_mem _
              (List.mem_cons_of_mem _ (hr.2 x hx'))

theorem knockout_roundsE_succ (S : Team → Option ℚ) (o : Rng) (fuel : ℕ)
    (ws : List Team) (s : ℕ) (h : 2 < ws.length) :
    knockout_roundsE S o (fuel + 1) ws s =
      match halveE S o ws s with
      | .error e => .error e
      | .ok (ws1, s1) => knockout_roundsE S o fuel ws1 s1 := by
  simp [knockout_roundsE, h]

theorem knockout_roundsE_stop (S : Team → Option ℚ) (o : Rng) (fuel : ℕ)
    (ws : List Team) (s : ℕ) (h : ¬ 2 < ws.length) :
    knockout_roundsE S o fuel ws s = .ok (ws, s) := by
  cases fuel with
  | zero => rfl
  | succ m => simp [knockout_roundsE, h]

theorem simulate_world_cup_ok (S : Team → Option ℚ) (o : Rng) (s : ℕ)
    (c r : Team) (s4 : ℕ)
    (hok : simulate_world_cup_2014E S o s = .ok ((c, r), s4)) :
    c ∈ WC2014_TEAMS ∧ (S c).isSome := by
  cases h1 : run_groupsE S o GROUPS [] s with
  | error e => simp [simulate_world_cup_2014E, h1] at hok
  | ok v1 =>
    obtain ⟨slots, s1⟩ := v1
    simp only [simulate_world_cup_2014E, h1] at hok
    cases h2 : run_r16E S o slots ROUND_OF_16 s1 with
    | error e => simp [h2] at hok
    | ok v2 =>
      obtain ⟨winners, s2⟩ := v2
      simp only [h2] at hok
      cases h3 : knockout_roundsE S o winners.length winners s2 with
      | error e => simp [h3] at hok
      | ok v3 =>
        obtain ⟨finalists, s3⟩ := v3
        simp only [h3] at hok
        cases h4 : knockout_winnerE S o (finalists.getD 0 "")
            (finalists.getD 1 "") s3 with
        | error e =>
          rw [h4] at hok
          exact Except.noConfusion hok
        | ok v4 =>
          obtain ⟨champ, s4'⟩ := v4
          simp only [h4] at hok
          injection hok with hp
          injection hp with he hs
          injection he with hc hr
          subst hc
          -- every slot value is a roster team
          have hgs : ∀ g ∈ GROUPS, 2 ≤ g.2.length ∧
              ∀ t ∈ g.2, t ∈ WC2014_TEAMS := by decide
          have hvals : ∀ k v, assocFind slots k = some v →
              v ∈ WC2014_TEAMS :=
            run_groupsE_values S o (· ∈ WC2014_TEAMS) GROUPS [] s slots s1
              hgs (fun k v hv => by simp [assocFind] at hv) h1
          have hcov := run_groupsE_coverage S o GROUPS [] s slots s1 h1
          have hnames : ∀ q ∈ ROUND_OF_16,
              (∃ g ∈ GROUPS, q.1 = g.1 ++ "1" ∨ q.1 = g.1 ++ "2") ∧
              (∃ g ∈ GROUPS, q.2 = g.1 ++ "1" ∨ q.2 = g.1 ++ "2") := by decide
          have hfix : ∀ q ∈ ROUND_OF_16,
              ((assocFind slots q.1).getD "") ∈ WC2014_TEAMS ∧
              ((assocFind slots q.2).getD "") ∈ WC2014_TEAMS := by
            intro q hq
            obtain ⟨⟨g1, hg1, hn1⟩, ⟨g2, hg2, hn2⟩⟩ := hnames q hq
            constructor
            · have hsom : (assocFind slots q.1).isSome := by
                rcases hn1 with h | h <;> rw [h]
                · exact (hcov g1 hg1).1
                · exact (hcov g1 hg1).2
              obtain ⟨v, hv⟩ := Option.isSome_iff_exists.mp hsom
              rw [hv]
              exact hvals _ _ hv
            · have hsom : (assocFind slots q.2).isSome := by
                rcases hn2 with h | h <;> rw [h]
                · exact (hcov g2 hg2).1
                · exact (hcov g2 hg2).2
              obtain ⟨v, hv⟩ := Option.isSome_iff_exists.mp hsom
              rw [hv]
              exact hvals _ _ hv
          have hr16 := run_r16E_mem S o slots (· ∈ WC2014_TEAMS)
            ROUND_OF_16 s1 winners s2 hfix h2
          have hwlen : winners.length = 8 := by
            rw [hr16.1]
            rfl
          -- resolve the two halving rounds: 8 → 4 → 2 finalists
          rw [hwlen, show (8 : ℕ) = 7 + 1 from rfl,
            knockout_roundsE_succ S o 7 winners s2 (by omega)] at h3
          cases h5 : halveE S o winners s2 with
          | error e => simp [h5] at h3
          | ok v5 =>
            obtain ⟨ws1, t1⟩ := v5
            simp only [h5] at h3
            have hh1 := halveE_spec S o 4 winners s2 ws1 t1 (by omega) h5
            rw [show (7 : ℕ) = 6 + 1 from rfl,
              knockout_roundsE_succ S o 6 ws1 t1 (by omega)] at h3
            cases h6 : halveE S o ws1 t1 with
            | error e => simp [h6] at h3
            | ok v6 =>
              obtain ⟨ws2, t2⟩ := v6
              simp only [h6] at h3
              have hh2 := halveE_spec S o 2 ws1 t1 ws2 t2 (by omega) h6
              rw [knockout_roundsE_stop S o 6 ws2 t2 (by omega)] at h3
              injection h3 with hp3
              injection hp3 with he3 hs3
              subst he3
              -- finalists = ws2, of length 2, all roster teams
              obtain ⟨hlen2, hsub2⟩ := hh2
              rcases ws2 with _ | ⟨x, _ | ⟨y, _ | ⟨z, ws2''⟩⟩⟩
              · simp only [List.length_nil] at hlen2
                omega
              · simp only [List.length_cons, List.length_nil] at hlen2
                omega
              · have hxy : x ∈ WC2014_TEAMS ∧ y ∈ WC2014_TEAMS := by
                  constructor
                  · exact hr16.2 x (hh1.2 x (hsub2 x (List.mem_cons_self _ _)))
                  · exact hr16.2 y (hh1.2 y (hsub2 y
                      (List.mem_cons_of_mem _ (List.mem_cons_self _ _))))
                have hko := knockout_winnerE_ok S o _ _ s3 champ s4' h4
                rcases hko.1 with hc | hc
                · have hcx : champ = x := by simpa using hc
                  subst hcx
                  exact ⟨hxy.1, hko.2⟩
                · have hcy : champ = y := by simpa using hc
                  subst hcy
                  exact ⟨hxy.2, hko.2⟩
              · simp only [List.length_cons] at hlen2
                omega

theorem run_trialsE_champs (S : Team → Option ℚ) (o : Rng) :
    ∀ (n s : ℕ) (champs : List Team) (s' : ℕ),
    run_trialsE S o n s = .ok (champs, s') →
    champs.length = n ∧ ∀ c ∈ champs, c ∈ WC2014_TEAMS ∧ (S c).isSome := by
  intro n
  induction n with
  | zero =>
    intro s champs s' hok
    simp only [run_trialsE] at hok
    injection hok with hp
    injection hp with he hs
    subst he
    simp
  | succ m ih =>
    intro s champs s' hok
    cases h1 : simulate_world_cup_2014E S o s with
    | error e => simp [run_trialsE, h1] at hok
    | ok v1 =>
      obtain ⟨⟨c, r⟩, s1⟩ := v1
      simp only [run_trialsE, h1] at hok
      cases h2 : run_trialsE S o m s1 with
      | error e => simp [h2] at hok
      | ok v2 =>
        obtain ⟨cs, s2⟩ := v2
        simp only [h2] at hok
        injection hok with hp
        injection hp with he hs
        subst he
        have hc := simulate_world_cup_ok S o s c r s1 h1
        have hrest := ih s1 cs s2 h2
        refine ⟨by simp [hrest.1], ?_⟩
        intro x hx
        rcases List.mem_cons.mp hx with rfl | hx'
        · exact hc
        · exact hrest.2 x hx'

theorem sum_map_add_nat (l : List Team) (f g : Team → ℕ) :
    (l.map (fun x => f x + g x)).sum = (l.map f).sum + (l.map g).sum := by
  induction l with
  | nil => rfl
  | cons x xs ih =>
    simp only [List.map_cons, List.sum_cons, ih]
    omega

theorem sum_map_indicator_zero (c : Team) : ∀ (l : List Team), c ∉ l →
    (l.map (fun t => if t = c then 1 else 0)).sum = 0 := by
  intro l
  induction l with
  | nil => intro _; rfl
  | cons x xs ih =>
    intro h
    have hx : x ≠ c := by
      rintro rfl
      exact h (List.mem_cons_self _ _)
    simp only [List.map_cons, List.sum_cons, if_neg hx]
    rw [ih (fun hm => h (List.mem_cons_of_mem _ hm))]

theorem sum_map_indicator_one (c : Team) : ∀ (l : List Team), l.Nodup →
    c ∈ l → (l.map (fun t => if t = c then 1 else 0)).sum = 1 := by
  intro l
  induction l with
  | nil => intro _ h; simp at h
  | cons x xs ih =>
    intro hnd hm
    rcases List.mem_cons.mp hm with rfl | hm'
    · simp only [List.map_cons, List.sum_cons, if_pos rfl]
      rw [sum_map_indicator_zero c xs (List.nodup_cons.mp hnd).1]
      simp
    · have hx : x ≠ c := by
        rintro rfl
        exact (List.nodup_cons.mp hnd).1 hm'
      simp only [List.map_cons, List.sum_cons, if_neg hx]
      rw [ih (List.nodup_cons.mp hnd).2 hm']

theorem sum_map_count_eq : ∀ (cs rts : List Team), rts.Nodup →
    (∀ c ∈ cs, c ∈ rts) →
    (rts.map (fun t => cs.count t)).sum = cs.length := by
  intro cs
  induction cs with
  | nil =>
    intro rts _ _
    apply List.sum_eq_zero
    intro x hx
    simp only [List.mem_map] at hx
    obtain ⟨t, -, rfl⟩ := hx
    simp
  | cons c cs ih =>
    intro rts hnd hsub
    have hmap : rts.map (fun t => (c :: cs).count t) =
        rts.map (fun t => cs.count t + if t = c then 1 else 0) := by
      apply List.map_congr_left
      intro t _
      rw [List.count_cons]
      simp only [beq_iff_eq]
      by_cases h : t = c
      · simp [h]
      · have h' : ¬ c = t := fun hh => h hh.symm
        simp [h, h']
    rw [hmap, sum_map_add_nat,
      ih rts hnd (fun x hx => hsub x (List.mem_cons_of_mem _ hx)),
      sum_map_indicator_one c rts hnd (hsub c (List.mem_cons_self _ _))]
    simp

theorem sum_map_natCast_q (l : List Team) (f : Team → ℕ) :
    (l.map (fun t => (f t : ℚ))).sum = ((l.map f).sum : ℚ) := by
  induction l with
  | nil => simp
  | cons x xs ih => simp [ih]

theorem sum_map_div_q (l : List Team) (f : Team → ℚ) (d : ℚ) :
    (l.map (fun t => f t / d)).sum = (l.map f).sum / d := by
  induction l with
  | nil => simp
  | cons x xs ih =>
    simp only [List.map_cons, List.sum_cons, ih, div_add_div_same]

/-- **C7 (confirmed).**  For every successful run with a positive trial count
(over a strength table whose domain is the key list used for the report), the
reported title probabilities — empirical champion frequencies with unobserved
teams filled with `0` — sum to exactly `1` under exact rational arithmetic. -/
theorem C7_title_probabilities_sum_one (S : Team → Option ℚ) (o : Rng)
    (n s : ℕ) (keys champs : List Team) (s' : ℕ) (hn : 0 < n)
    (hkeys : ∀ t : Team, t ∈ keys ↔ (S t).isSome)
    (hok : run_trialsE S o n s = .ok (champs, s')) :
    ((result keys champs).map (fun p => p.2)).sum = 1 := by
  obtain ⟨hlen, hmem⟩ := run_trialsE_champs S o n s champs s' hok
  have hres : (result keys champs).map (fun p => p.2) =
      (result_teams keys).map (fun t => p_title champs t) := by
    simp [result, List.map_map, Function.comp_def]
  rw [hres]
  have hnd : (result_teams keys).Nodup :=
    List.Nodup.filter _ (List.nodup_dedup keys)
  have hsub : ∀ c ∈ champs, c ∈ result_teams keys := by
    intro c hc
    obtain ⟨hros, hsome⟩ := hmem c hc
    have hk : c ∈ keys := (hkeys c).mpr hsome
    simp only [result_teams, List.mem_filter, List.mem_dedup]
    exact ⟨hk, decide_eq_true hros⟩
  have hcount := sum_map_count_eq champs (result_teams keys) hnd hsub
  have hptitle : (result_teams keys).map (fun t => p_title champs t) =
      (result_teams keys).map
        (fun t => ((champs.count t : ℚ)) / ((champs.length : ℚ))) := rfl
  rw [hptitle, sum_map_div_q, sum_map_natCast_q, hcount]
  have hne : (champs.length : ℚ) ≠ 0 := by
    rw [hlen]
    exact_mod_cast Nat.pos_iff_ne_zero.mp hn
  exact div_self hne

/-- **C7 witness**: one trial over the roster-domain strength table; the lone
champion is Portugal and the reported probabilities sum to 1. -/
theorem C7_title_probabilities_sum_one_witness :
    0 < 1 ∧ (∀ t : Team, t ∈ WC2014_TEAMS ↔ (rosterStrength t).isSome) ∧
    run_trialsE rosterStrength zeroRng 1 0 = .ok (["Portugal"], 173) ∧
    ((result WC2014_TEAMS ["Portugal"]).map (fun p => p.2)).sum = 1 := by
  have hkeys : ∀ t : Team, t ∈ WC2014_TEAMS ↔ (rosterStrength t).isSome := by
    intro t
    by_cases h : t ∈ WC2014_TEAMS <;> simp [rosterStrength, h]
  have hrun : run_trialsE rosterStrength zeroRng 1 0 =
      .ok (["Portugal"], 173) := by rfl
  exact ⟨Nat.one_pos, hkeys, hrun,
    C7_title_probabilities_sum_one rosterStrength zeroRng 1 0 WC2014_TEAMS
      ["Portugal"] 173 Nat.one_pos hkeys hrun⟩

end Theorems

end WM2014
